import Mathlib

/-!
Verification of the actor_poc DAG engine core against its specification.

The Rust sources are shallowly embedded: each stateful step handler becomes a
pure function from (step state, incoming message) to (new state, list of
messages sent to the coordinator).  Machine integers (`u64`, `u32`, `usize`)
are modelled by `Nat` (no arithmetic in the embedded code can overflow or
wrap: ids are only compared, counters only decremented while positive, lengths
only compared).  `f64` payloads are modelled by `ℚ`; the embedding is exact
for the operations the code performs on them (comparison, `max`, division),
and the NaN produced by folding `f64::max` from a NaN seed over an empty
slice is modelled by `Option` (`none` = NaN); non-finite inputs are outside
the model.  `HashMap`/`HashSet` are modelled by association lists with
overwrite-on-insert; the embedded code never iterates over a `HashMap`, so
the representation order is unobservable.  Logging, timing (`Instant`,
`duration`) and the `trace` field of messages (pure timing metadata, read by
no handler) are not modelled.
-/

namespace ActorPoc

/-- Association-list lookup, modelling `HashMap::get`. -/
def alookup {α β : Type} [DecidableEq α] (k : α) : List (α × β) → Option β
  | [] => none
  | (k', v) :: rest => if k = k' then some v else alookup k rest

/-- Association-list insert with overwrite, modelling `HashMap::insert`:
replaces the value when the key is present, otherwise appends the binding. -/
def ainsert {α β : Type} [DecidableEq α] (k : α) (v : β) :
    List (α × β) → List (α × β)
  | [] => [(k, v)]
  | (a, b) :: rest => if a = k then (k, v) :: rest else (a, b) :: ainsert k v rest

/-- Association-list removal, modelling `HashMap::remove`. -/
def aremove {α β : Type} [DecidableEq α] (k : α) :
    List (α × β) → List (α × β)
  | [] => []
  | (a, b) :: rest => if a = k then aremove k rest else (a, b) :: aremove k rest

theorem alookup_ainsert_self {α β : Type} [DecidableEq α] (k : α) (v : β) :
    ∀ m : List (α × β), alookup k (ainsert k v m) = some v
  | [] => by simp [ainsert, alookup]
  | (a, b) :: rest => by
      by_cases ha : a = k
      · simp [ainsert, ha, alookup]
      · have hk : ¬k = a := fun h => ha h.symm
        simp [ainsert, ha, alookup, hk, alookup_ainsert_self k v rest]

theorem alookup_ainsert_ne {α β : Type} [DecidableEq α] {k k' : α} (v : β)
    (h : k ≠ k') : ∀ m : List (α × β), alookup k (ainsert k' v m) = alookup k m
  | [] => by simp [ainsert, alookup, h]
  | (a, b) :: rest => by
      by_cases ha : a = k'
      · subst ha
        simp [ainsert, alookup, h, fun hh : k = a => h hh]
      · simp [ainsert, ha, alookup, alookup_ainsert_ne v h rest]

theorem alookup_aremove_self {α β : Type} [DecidableEq α] (k : α) :
    ∀ m : List (α × β), alookup k (aremove k m) = none
  | [] => rfl
  | (a, b) :: rest => by
      by_cases ha : a = k
      · simp [aremove, ha, alookup_aremove_self k rest]
      · have hk : ¬k = a := fun h => ha h.symm
        simp [aremove, ha, alookup, hk, alookup_aremove_self k rest]

theorem alookup_aremove_ne {α β : Type} [DecidableEq α] {k k' : α}
    (h : k ≠ k') : ∀ m : List (α × β), alookup k (aremove k' m) = alookup k m
  | [] => rfl
  | (a, b) :: rest => by
      by_cases ha : a = k'
      · subst ha
        simp [aremove, alookup, fun hh : k = a => h hh,
          alookup_aremove_ne h rest]
      · simp [aremove, ha, alookup, alookup_aremove_ne h rest]

/-- Message routed between steps (src/messages.rs `ProcessMessage`).  The
`trace` field (timing metadata, never read by any handler) is not modelled. -/
structure ProcessMessage where
  id : Nat
  node_id : String
  data : List ℚ
  batch_id : Option Nat
  batch_total : Option Nat
deriving DecidableEq

/-- Correlation key of a message at a join or pooler: `batch_id` if present,
else `id` (`msg.batch_id.unwrap_or(msg.id)` in the source). -/
def keyOf (msg : ProcessMessage) : Nat :=
  msg.batch_id.getD msg.id

/-- Join mode (src/steps/step_join_point.rs `JoinMode`). -/
inductive JoinMode
  | AND
  | OR
deriving DecidableEq

/-- Fan-in join step (src/steps/step_join_point.rs `StepJoinPoint`).  The
`coordinator` address, `params` snapshot and unexercised `output_mode` field
are not modelled; emissions (`coordinator.do_send`) are returned as a list. -/
structure StepJoinPoint where
  name : String
  output_name : String
  expected_nodes : List String
  mode : JoinMode
  pending : List (Nat × List (String × List ℚ))
  completed_ids : List (Nat × Nat)
deriving DecidableEq

/-- Handler of `ProcessMessage` for `StepJoinPoint`
(src/steps/step_join_point.rs, `impl Handler<ProcessMessage>`).  In the AND
arm the source reads `entry.get(node).unwrap()` under the guard that every
expected node is present; the model uses `Option.getD []`, which agrees with
it whenever the guard holds. -/
def StepJoinPoint.handle (s : StepJoinPoint) (msg : ProcessMessage) :
    StepJoinPoint × List ProcessMessage :=
  match s.mode with
  | JoinMode.AND =>
    let key := keyOf msg
    let entry := ainsert msg.node_id msg.data ((alookup key s.pending).getD [])
    let pending1 := ainsert key entry s.pending
    if s.expected_nodes.all (fun node => (alookup node entry).isSome) then
      let combined_data : List ℚ :=
        (s.expected_nodes.map (fun node => (alookup node entry).getD [])).flatten
      ({ s with pending := aremove key pending1 },
       [{ id := key, node_id := s.output_name, data := combined_data,
          batch_id := msg.batch_id, batch_total := msg.batch_total }])
    else
      ({ s with pending := pending1 }, [])
  | JoinMode.OR =>
    let key := keyOf msg
    match alookup key s.completed_ids with
    | some count =>
      if 0 < count then
        let count1 := count - 1
        let cids := ainsert key count1 s.completed_ids
        if count1 = 0 then
          ({ s with completed_ids := aremove key cids }, [])
        else
          ({ s with completed_ids := cids }, [])
      else
        (s, [])
    | none =>
      let out : ProcessMessage :=
        { id := key, node_id := s.output_name, data := msg.data,
          batch_id := msg.batch_id, batch_total := msg.batch_total }
      let remaining :=
        if 1 < s.expected_nodes.length then s.expected_nodes.length - 1 else 0
      let cids := ainsert key remaining s.completed_ids
      if remaining = 0 then
        ({ s with completed_ids := aremove key cids }, [out])
      else
        ({ s with completed_ids := cids }, [out])

/-- Feed a list of messages through a join step in arrival order, collecting
all emissions (the repeated invocation of the actor's handler on its inbox). -/
def StepJoinPoint.run (s : StepJoinPoint) (msgs : List ProcessMessage) :
    StepJoinPoint × List ProcessMessage :=
  msgs.foldl
    (fun acc m =>
      let r := StepJoinPoint.handle acc.1 m
      (r.1, acc.2 ++ r.2))
    (s, [])

theorem join_run_nil (s : StepJoinPoint) :
    StepJoinPoint.run s [] = (s, []) := rfl

theorem join_run_acc (ms : List ProcessMessage) :
    ∀ (s : StepJoinPoint) (out : List ProcessMessage),
      ms.foldl
        (fun acc m =>
          let r := StepJoinPoint.handle acc.1 m
          (r.1, acc.2 ++ r.2))
        (s, out) =
        ((StepJoinPoint.run s ms).1, out ++ (StepJoinPoint.run s ms).2) := by
  induction ms with
  | nil => intro s out; simp [StepJoinPoint.run]
  | cons m rest ih =>
    intro s out
    have h1 := ih (StepJoinPoint.handle s m).1 (out ++ (StepJoinPoint.handle s m).2)
    have h2 := ih (StepJoinPoint.handle s m).1 ((StepJoinPoint.handle s m).2)
    simp only [StepJoinPoint.run, List.foldl_cons, List.nil_append] at h1 h2 ⊢
    rw [h1, h2]
    simp [List.append_assoc]

theorem join_run_cons (s : StepJoinPoint) (m : ProcessMessage)
    (ms : List ProcessMessage) :
    StepJoinPoint.run s (m :: ms) =
      (((StepJoinPoint.handle s m).1.run ms).1,
       (StepJoinPoint.handle s m).2 ++ ((StepJoinPoint.handle s m).1.run ms).2) := by
  simp only [StepJoinPoint.run, List.foldl_cons]
  exact join_run_acc ms _ _

theorem join_run_append (s : StepJoinPoint)
    (ms₁ ms₂ : List ProcessMessage) :
    StepJoinPoint.run s (ms₁ ++ ms₂) =
      ((StepJoinPoint.run (StepJoinPoint.run s ms₁).1 ms₂).1,
       (StepJoinPoint.run s ms₁).2 ++ (StepJoinPoint.run (StepJoinPoint.run s ms₁).1 ms₂).2) := by
  simp only [StepJoinPoint.run, List.foldl_append]
  have := join_run_acc ms₂ (StepJoinPoint.run s ms₁).1 (StepJoinPoint.run s ms₁).2
  simp only [StepJoinPoint.run] at this
  rw [this]

/-- Contents of the inner map `pending[K]` after the listed messages (all
with key `K`) have been recorded: each message overwrites the slot of its
`node_id`. -/
def entryOf (msgs : List ProcessMessage) : List (String × List ℚ) :=
  msgs.foldl (fun e m => ainsert m.node_id m.data e) []

/-- Data stored in `pending[K]` for input `n`: the data of the last message
with `node_id = n` (`[]` when none arrived). -/
def lastDataFor (msgs : List ProcessMessage) (n : String) : List ℚ :=
  (((msgs.filter (fun m => m.node_id = n)).getLast?).map (fun m => m.data)).getD []

theorem entryOf_append (p : List ProcessMessage) (m : ProcessMessage) :
    entryOf (p ++ [m]) = ainsert m.node_id m.data (entryOf p) := by
  simp [entryOf, List.foldl_append]

theorem alookup_entryOf (n : String) (msgs : List ProcessMessage) :
    alookup n (entryOf msgs) =
      ((msgs.filter (fun m => m.node_id = n)).getLast?).map (fun m => m.data) := by
  induction msgs using List.reverseRecOn with
  | nil => rfl
  | append_singleton p m ih =>
    rw [entryOf_append]
    by_cases hn : m.node_id = n
    · rw [← hn, alookup_ainsert_self]
      simp [List.filter_append, hn, List.getLast?_concat]
    · have hne : n ≠ m.node_id := fun h => hn h.symm
      rw [alookup_ainsert_ne _ hne, ih]
      simp [List.filter_append, hn]

theorem alookup_entryOf_isSome (n : String) (msgs : List ProcessMessage) :
    (alookup n (entryOf msgs)).isSome ↔ n ∈ msgs.map (fun m => m.node_id) := by
  rw [alookup_entryOf]
  simp only [Option.isSome_map']
  rw [List.getLast?_isSome]
  simp only [ne_eq, List.filter_eq_nil_iff, not_forall, Decidable.not_not]
  constructor
  · rintro ⟨m, hm, hp⟩
    exact List.mem_map.mpr ⟨m, hm, by simpa using hp⟩
  · intro h
    rcases List.mem_map.mp h with ⟨m, hm, hp⟩
    exact ⟨m, hm, by simpa using hp⟩

/-- Guard of the AND arm (`expected_nodes.iter().all(...)`) holds iff every
expected name has been delivered. -/
theorem and_guard_iff (E : List String) (msgs : List ProcessMessage) :
    (E.all (fun node => (alookup node (entryOf msgs)).isSome) = true) ↔
      ∀ n ∈ E, n ∈ msgs.map (fun m => m.node_id) := by
  rw [List.all_eq_true]
  constructor
  · intro h n hn
    exact (alookup_entryOf_isSome n msgs).mp (by simpa using h n hn)
  · intro h n hn
    simpa using (alookup_entryOf_isSome n msgs).mpr (h n hn)

/-- Run of an AND join over messages of a single key `K` that never cover
`expected_nodes`: everything accumulates in `pending[K]` and nothing is
emitted. -/
theorem and_run_pending (nm out : String) (E : List String)
    (cids : List (Nat × Nat)) (K : Nat) (msgs : List ProcessMessage)
    (hkey : ∀ m ∈ msgs, keyOf m = K)
    (hnc : ¬∀ n ∈ E, n ∈ msgs.map (fun m => m.node_id)) :
    StepJoinPoint.run
        { name := nm, output_name := out, expected_nodes := E,
          mode := JoinMode.AND, pending := [], completed_ids := cids } msgs =
      ({ name := nm, output_name := out, expected_nodes := E,
         mode := JoinMode.AND,
         pending := if msgs = [] then [] else [(K, entryOf msgs)],
         completed_ids := cids }, []) := by
  induction msgs using List.reverseRecOn with
  | nil =>
    unfold StepJoinPoint.run
    simp
  | append_singleton p m ih =>
    have hkeyp : ∀ m' ∈ p, keyOf m' = K := fun m' hm' => hkey m' (by simp [hm'])
    have hkm : keyOf m = K := hkey m (by simp)
    have hncp : ¬∀ n ∈ E, n ∈ p.map (fun m => m.node_id) := by
      intro h
      exact hnc (fun n hn => by
        rcases List.mem_map.mp (h n hn) with ⟨m', hm', he⟩
        exact List.mem_map.mpr ⟨m', by simp [hm'], he⟩)
    rw [join_run_append, ih hkeyp hncp]
    have hguard : ¬(E.all
        (fun node => (alookup node (entryOf (p ++ [m]))).isSome) = true) := by
      rw [and_guard_iff]; exact hnc
    have h1 : (alookup K (if p = [] then []
        else [(K, entryOf p)])).getD [] = entryOf p := by
      by_cases hp : p = []
      · subst hp; simp [alookup, entryOf]
      · simp [hp, alookup]
    have h2 : ∀ e : List (String × List ℚ),
        ainsert K e (if p = [] then ([] : List (Nat × List (String × List ℚ)))
          else [(K, entryOf p)]) = [(K, e)] := by
      intro e
      by_cases hp : p = []
      · simp [hp, ainsert]
      · simp [hp, ainsert]
    simp only [StepJoinPoint.run, List.foldl_cons, List.foldl_nil,
      StepJoinPoint.handle, hkm, h1, ← entryOf_append]
    rw [if_neg hguard]
    simp [h2]

theorem getD_alookup_entryOf (n : String) (msgs : List ProcessMessage) :
    (alookup n (entryOf msgs)).getD [] = lastDataFor msgs n := by
  rw [alookup_entryOf]; rfl

/-- Run of an AND join over messages of a single key `K`, one per distinct
branch, that do cover `expected_nodes`: a single message is emitted at the
final arrival and `pending[K]` is removed. -/
theorem and_run_emit (nm out : String) (E : List String)
    (cids : List (Nat × Nat)) (K : Nat) (p : List ProcessMessage)
    (m : ProcessMessage)
    (hkey : ∀ m' ∈ p ++ [m], keyOf m' = K)
    (hsub : ∀ m' ∈ p ++ [m], m'.node_id ∈ E)
    (hnd : ((p ++ [m]).map (fun m' => m'.node_id)).Nodup)
    (hcov : ∀ n ∈ E, n ∈ (p ++ [m]).map (fun m' => m'.node_id)) :
    StepJoinPoint.run
        { name := nm, output_name := out, expected_nodes := E,
          mode := JoinMode.AND, pending := [], completed_ids := cids } (p ++ [m]) =
      ({ name := nm, output_name := out, expected_nodes := E,
         mode := JoinMode.AND, pending := [], completed_ids := cids },
       [{ id := K, node_id := out,
          data := (E.map (lastDataFor (p ++ [m]))).flatten,
          batch_id := m.batch_id, batch_total := m.batch_total }]) := by
  have hkeyp : ∀ m' ∈ p, keyOf m' = K := fun m' hm' => hkey m' (by simp [hm'])
  have hkm : keyOf m = K := hkey m (by simp)
  have hmnot : m.node_id ∉ p.map (fun m' => m'.node_id) := by
    have h := hnd
    simp only [List.map_append, List.map_cons, List.map_nil] at h
    intro hmem
    exact (List.nodup_append.mp h).2.2 hmem (by simp)
  have hncp : ¬∀ n ∈ E, n ∈ p.map (fun m' => m'.node_id) := by
    intro h
    exact hmnot (h m.node_id (hsub m (by simp)))
  rw [join_run_append, and_run_pending nm out E cids K p hkeyp hncp]
  have hguard : E.all
      (fun node => (alookup node (entryOf (p ++ [m]))).isSome) = true := by
    rw [and_guard_iff]; exact hcov
  have h1 : (alookup K (if p = [] then []
      else [(K, entryOf p)])).getD [] = entryOf p := by
    by_cases hp : p = []
    · subst hp; simp [alookup, entryOf]
    · simp [hp, alookup]
  have h2 : ∀ e : List (String × List ℚ),
      ainsert K e (if p = [] then ([] : List (Nat × List (String × List ℚ)))
        else [(K, entryOf p)]) = [(K, e)] := by
    intro e
    by_cases hp : p = []
    · simp [hp, ainsert]
    · simp [hp, ainsert]
  simp only [StepJoinPoint.run, List.foldl_cons, List.foldl_nil,
    StepJoinPoint.handle, hkm, h1, ← entryOf_append]
  rw [if_pos hguard]
  simp [h2, aremove, getD_alookup_entryOf]

/-- C1.  For a key `K`, an AND-mode join fed one message per distinct branch
(all keyed `K`, each branch name among `expected_nodes`, no branch twice)
emits exactly once iff every name in `expected_nodes` was delivered; the
emission carries `id = K`, the concatenation of the stored per-input data in
`expected_nodes` declaration order, and the triggering (final) message's
`batch_id`/`batch_total`, and `pending[K]` is deleted afterwards. -/
theorem join_and_exactly_once (nm out : String) (E : List String)
    (cids : List (Nat × Nat)) (K : Nat) (msgs : List ProcessMessage)
    (hE : E ≠ [])
    (hkey : ∀ m ∈ msgs, keyOf m = K)
    (hsub : ∀ m ∈ msgs, m.node_id ∈ E)
    (hnd : (msgs.map (fun m => m.node_id)).Nodup) :
    ((StepJoinPoint.run
        { name := nm, output_name := out, expected_nodes := E,
          mode := JoinMode.AND, pending := [], completed_ids := cids }
        msgs).2.length = 1 ↔
      ∀ n ∈ E, n ∈ msgs.map (fun m => m.node_id)) ∧
    ∀ (hne : msgs ≠ []),
      (∀ n ∈ E, n ∈ msgs.map (fun m => m.node_id)) →
        (StepJoinPoint.run
            { name := nm, output_name := out, expected_nodes := E,
              mode := JoinMode.AND, pending := [], completed_ids := cids }
            msgs).2 =
          [{ id := K, node_id := out,
             data := (E.map (lastDataFor msgs)).flatten,
             batch_id := (msgs.getLast hne).batch_id,
             batch_total := (msgs.getLast hne).batch_total }] ∧
        alookup K (StepJoinPoint.run
            { name := nm, output_name := out, expected_nodes := E,
              mode := JoinMode.AND, pending := [], completed_ids := cids }
            msgs).1.pending = none := by
  have main : ∀ (hne : msgs ≠ []),
      (∀ n ∈ E, n ∈ msgs.map (fun m => m.node_id)) →
      StepJoinPoint.run
          { name := nm, output_name := out, expected_nodes := E,
            mode := JoinMode.AND, pending := [], completed_ids := cids } msgs =
        ({ name := nm, output_name := out, expected_nodes := E,
           mode := JoinMode.AND, pending := [], completed_ids := cids },
         [{ id := K, node_id := out,
            data := (E.map (lastDataFor msgs)).flatten,
            batch_id := (msgs.getLast hne).batch_id,
            batch_total := (msgs.getLast hne).batch_total }]) := by
    intro hne hcov
    rcases List.eq_nil_or_concat msgs with h | ⟨p, m, hpm⟩
    · exact absurd h hne
    · rw [List.concat_eq_append] at hpm
      subst hpm
      have hlast : (p ++ [m]).getLast hne = m := by
        simp
      rw [and_run_emit nm out E cids K p m hkey hsub hnd hcov, hlast]
  constructor
  · constructor
    · intro hlen
      by_contra hnc
      rw [and_run_pending nm out E cids K msgs hkey hnc] at hlen
      simp at hlen
    · intro hcov
      have hne : msgs ≠ [] := by
        intro h
        subst h
        rcases E with _ | ⟨n, E'⟩
        · exact hE rfl
        · simpa using hcov n (by simp)
      rw [main hne hcov]
      rfl
  · intro hne hcov
    rw [main hne hcov]
    simp [alookup]

/-- Witness for C1 at a concrete input: branches `a`, `b`, key `5`. -/
theorem join_and_exactly_once_witness :
    (StepJoinPoint.run
        { name := "j", output_name := "joined", expected_nodes := ["a", "b"],
          mode := JoinMode.AND, pending := [], completed_ids := [] }
        [{ id := 5, node_id := "a", data := [1], batch_id := none,
           batch_total := none },
         { id := 5, node_id := "b", data := [2], batch_id := none,
           batch_total := none }]).2.length = 1 := by
  exact (join_and_exactly_once "j" "joined" ["a", "b"] [] 5
      [{ id := 5, node_id := "a", data := [1], batch_id := none,
         batch_total := none },
       { id := 5, node_id := "b", data := [2], batch_id := none,
         batch_total := none }]
      (by decide) (by decide) (by decide) (by decide)).1.mpr (by decide)

/-- Run of an OR join over further messages of key `K` once
`completed_ids[K] = r` is set: each arrival is dropped and decrements the
counter; the entry is removed when it reaches zero. -/
theorem or_run_decrement (nm out : String) (E : List String)
    (Pd : List (Nat × List (String × List ℚ))) (K : Nat) :
    ∀ (p : List ProcessMessage) (r : Nat),
      (∀ m ∈ p, keyOf m = K) → 0 < r → p.length ≤ r →
      StepJoinPoint.run
          { name := nm, output_name := out, expected_nodes := E,
            mode := JoinMode.OR, pending := Pd, completed_ids := [(K, r)] } p =
        ({ name := nm, output_name := out, expected_nodes := E,
           mode := JoinMode.OR, pending := Pd,
           completed_ids :=
             if r - p.length = 0 then [] else [(K, r - p.length)] }, [])
  | [], r, _, hr, _ => by
      have h0 : ¬(r = 0) := by omega
      unfold StepJoinPoint.run
      simp [h0]
  | m :: rest, r, hkey, hr, hp => by
      have hkm : keyOf m = K := hkey m (by simp)
      have hstep : StepJoinPoint.handle
          { name := nm, output_name := out, expected_nodes := E,
            mode := JoinMode.OR, pending := Pd, completed_ids := [(K, r)] } m =
          ({ name := nm, output_name := out, expected_nodes := E,
             mode := JoinMode.OR, pending := Pd,
             completed_ids := if r - 1 = 0 then [] else [(K, r - 1)] }, []) := by
        simp only [StepJoinPoint.handle, hkm]
        have hl : alookup K [(K, r)] = some r := by simp [alookup]
        rw [hl]
        simp only [if_pos hr]
        by_cases h0 : r - 1 = 0
        · simp [h0, ainsert, aremove]
        · simp [h0, ainsert]
      rw [join_run_cons, hstep]
      by_cases h0 : r - 1 = 0
      · have hrest : rest = [] := by
          have : rest.length = 0 := by
            have := hp
            simp at this
            omega
          exact List.length_eq_zero.mp this
        subst hrest
        have h1 : r - (1 : Nat) = 0 := h0
        have h2 : r - ([m] : List ProcessMessage).length = 0 := by
          simp; omega
        simp [h0, h2, StepJoinPoint.run]
      · have ih := or_run_decrement nm out E Pd K rest (r - 1)
          (fun m' hm' => hkey m' (by simp [hm'])) (by omega)
          (by have := hp; simp at this; omega)
        simp only [if_neg h0]
        simp only [ih]
        have h3 : r - 1 - rest.length = r - (m :: rest).length := by
          simp; omega
        rw [h3]
        rfl

/-- C2 (amended).  An OR-mode join fed at most `|expected_nodes|` messages of
key `K` emits exactly once, on the first arrival, with that message's `data`,
`batch_id` and `batch_total` (and `id = K`); each later arrival is dropped
and decrements the remaining-branch counter, whose entry is deleted when it
reaches zero. -/
theorem join_or_first_arrival (nm out : String) (E : List String)
    (Pd : List (Nat × List (String × List ℚ))) (K : Nat)
    (msgs : List ProcessMessage)
    (hkey : ∀ m ∈ msgs, keyOf m = K)
    (hne : msgs ≠ [])
    (hlen : msgs.length ≤ E.length) :
    StepJoinPoint.run
        { name := nm, output_name := out, expected_nodes := E,
          mode := JoinMode.OR, pending := Pd, completed_ids := [] } msgs =
      ({ name := nm, output_name := out, expected_nodes := E,
         mode := JoinMode.OR, pending := Pd,
         completed_ids :=
           if msgs.length < E.length then [(K, E.length - msgs.length)]
           else [] },
       [{ id := K, node_id := out, data := (msgs.head hne).data,
          batch_id := (msgs.head hne).batch_id,
          batch_total := (msgs.head hne).batch_total }]) := by
  rcases msgs with _ | ⟨h, t⟩
  · exact absurd rfl hne
  · have hkh : keyOf h = K := hkey h (by simp)
    have hstep : StepJoinPoint.handle
        { name := nm, output_name := out, expected_nodes := E,
          mode := JoinMode.OR, pending := Pd, completed_ids := [] } h =
        ({ name := nm, output_name := out, expected_nodes := E,
           mode := JoinMode.OR, pending := Pd,
           completed_ids :=
             if 1 < E.length then [(K, E.length - 1)] else [] },
         [{ id := K, node_id := out, data := h.data,
            batch_id := h.batch_id, batch_total := h.batch_total }]) := by
      simp only [StepJoinPoint.handle, hkh]
      have hl : alookup K ([] : List (Nat × Nat)) = none := rfl
      rw [hl]
      by_cases h1 : 1 < E.length
      · have hr0 : ¬(E.length - 1 = 0) := by omega
        simp [h1, hr0, ainsert]
      · simp [h1, ainsert, aremove]
    rw [join_run_cons, hstep]
    by_cases h1 : 1 < E.length
    · simp only [if_pos h1]
      by_cases ht : t = []
      · subst ht
        have hlt : ([h] : List ProcessMessage).length < E.length := by
          simpa using h1
        have hr0 : ¬(E.length - 1 = 0) := by omega
        simp [StepJoinPoint.run, hlt, h1]
      · have ih := or_run_decrement nm out E Pd K t (E.length - 1)
          (fun m' hm' => hkey m' (by simp [hm'])) (by omega)
          (by have := hlen; simp at this; omega)
        simp only [ih]
        have h3 : E.length - 1 - t.length = E.length - (h :: t).length := by
          simp; omega
        have h4 : (E.length - 1 - t.length = 0) ↔
            ¬((h :: t).length < E.length) := by
          simp; omega
        by_cases h5 : (h :: t).length < E.length
        · rw [if_neg (by rw [h4]; exact fun hh => hh h5), h3, if_pos h5]
          simp
        · rw [if_pos (h4.mpr h5), if_neg h5]
          simp
    · simp only [if_neg h1]
      have ht : t = [] := by
        have := hlen
        simp at this
        have : t.length = 0 := by omega
        exact List.length_eq_zero.mp this
      subst ht
      have hlt : ¬(([h] : List ProcessMessage).length < E.length) := by
        simp; omega
      simp [StepJoinPoint.run, hlt]
      omega

/-- Witness for C2 (amended) at a concrete input: two branches, two arrivals
for key `7`; one emission carrying the first arrival's payload. -/
theorem join_or_first_arrival_witness :
    StepJoinPoint.run
        { name := "j", output_name := "joined", expected_nodes := ["a", "b"],
          mode := JoinMode.OR, pending := [], completed_ids := [] }
        [{ id := 7, node_id := "a", data := [1], batch_id := none,
           batch_total := none },
         { id := 7, node_id := "b", data := [2], batch_id := none,
           batch_total := none }] =
      ({ name := "j", output_name := "joined", expected_nodes := ["a", "b"],
         mode := JoinMode.OR, pending := [], completed_ids := [] },
       [{ id := 7, node_id := "joined", data := [1], batch_id := none,
          batch_total := none }]) := by
  have h := join_or_first_arrival "j" "joined" ["a", "b"] [] 7
    [{ id := 7, node_id := "a", data := [1], batch_id := none,
       batch_total := none },
     { id := 7, node_id := "b", data := [2], batch_id := none,
       batch_total := none }]
    (by decide) (by decide) (by decide)
  simpa using h

/-- Counterexample to C2 as stated: with `expected_nodes = [a, b]`, a third
arrival for key `7` finds the counter entry already deleted and re-emits, so
the join emits twice for that key — not exactly once regardless of the number
of arrivals. -/
theorem join_or_reemission_counterexample :
    (StepJoinPoint.run
        { name := "j", output_name := "joined", expected_nodes := ["a", "b"],
          mode := JoinMode.OR, pending := [], completed_ids := [] }
        [{ id := 7, node_id := "a", data := [], batch_id := none,
           batch_total := none },
         { id := 7, node_id := "b", data := [], batch_id := none,
           batch_total := none },
         { id := 7, node_id := "a", data := [], batch_id := none,
           batch_total := none }]).2.length = 2 := by
  decide

/-- Pooling modes (src/steps/batch_pooler.rs `PoolingMode`). -/
inductive PoolingMode
  | Window (size : Nat)
  | BatchId
deriving DecidableEq

/-- Batching step (src/steps/batch_pooler.rs `BatchPooler`).  The
`coordinator` address and `params` snapshot are not modelled; emissions are
returned as a list. -/
structure BatchPooler where
  name : String
  output_name : String
  mode : PoolingMode
  window_buffer : List ProcessMessage
  batch_buffers : List (Nat × List ProcessMessage)
deriving DecidableEq

/-- Handler of `ProcessMessage` for `BatchPooler`
(src/steps/batch_pooler.rs, `impl Handler<ProcessMessage>`).  A message
without both batch fields in `BatchId` mode falls through the
`if let` silently. -/
def BatchPooler.handle (s : BatchPooler) (msg : ProcessMessage) :
    BatchPooler × List ProcessMessage :=
  match s.mode with
  | PoolingMode.Window size =>
    let buf := s.window_buffer ++ [msg]
    if size ≤ buf.length then
      ({ s with window_buffer := [] },
       [{ id := msg.id, node_id := s.output_name,
          data := (buf.map (fun m => m.data)).flatten,
          batch_id := msg.batch_id, batch_total := msg.batch_total }])
    else
      ({ s with window_buffer := buf }, [])
  | PoolingMode.BatchId =>
    match msg.batch_id, msg.batch_total with
    | some batch_id, some batch_total =>
      let buf := ((alookup batch_id s.batch_buffers).getD []) ++ [msg]
      let bufs1 := ainsert batch_id buf s.batch_buffers
      if batch_total ≤ buf.length then
        ({ s with batch_buffers := aremove batch_id bufs1 },
         [{ id := batch_id, node_id := s.output_name,
            data := (buf.map (fun m => m.data)).flatten,
            batch_id := some batch_id, batch_total := some buf.length }])
      else
        ({ s with batch_buffers := bufs1 }, [])
    | _, _ => (s, [])

/-- Feed a list of messages through a pooler in arrival order, collecting all
emissions. -/
def BatchPooler.run (s : BatchPooler) (msgs : List ProcessMessage) :
    BatchPooler × List ProcessMessage :=
  msgs.foldl
    (fun acc m =>
      let r := BatchPooler.handle acc.1 m
      (r.1, acc.2 ++ r.2))
    (s, [])

theorem pooler_run_acc (ms : List ProcessMessage) :
    ∀ (s : BatchPooler) (out : List ProcessMessage),
      ms.foldl
        (fun acc m =>
          let r := BatchPooler.handle acc.1 m
          (r.1, acc.2 ++ r.2))
        (s, out) =
        ((BatchPooler.run s ms).1, out ++ (BatchPooler.run s ms).2) := by
  induction ms with
  | nil => intro s out; simp [BatchPooler.run]
  | cons m rest ih =>
    intro s out
    have h1 := ih (BatchPooler.handle s m).1 (out ++ (BatchPooler.handle s m).2)
    have h2 := ih (BatchPooler.handle s m).1 ((BatchPooler.handle s m).2)
    simp only [BatchPooler.run, List.foldl_cons, List.nil_append] at h1 h2 ⊢
    rw [h1, h2]
    simp [List.append_assoc]

theorem pooler_run_cons (s : BatchPooler) (m : ProcessMessage)
    (ms : List ProcessMessage) :
    BatchPooler.run s (m :: ms) =
      (((BatchPooler.handle s m).1.run ms).1,
       (BatchPooler.handle s m).2 ++ ((BatchPooler.handle s m).1.run ms).2) := by
  simp only [BatchPooler.run, List.foldl_cons]
  exact pooler_run_acc ms _ _

theorem pooler_run_append (s : BatchPooler)
    (ms₁ ms₂ : List ProcessMessage) :
    BatchPooler.run s (ms₁ ++ ms₂) =
      ((BatchPooler.run (BatchPooler.run s ms₁).1 ms₂).1,
       (BatchPooler.run s ms₁).2 ++ (BatchPooler.run (BatchPooler.run s ms₁).1 ms₂).2) := by
  simp only [BatchPooler.run, List.foldl_append]
  have := pooler_run_acc ms₂ (BatchPooler.run s ms₁).1 (BatchPooler.run s ms₁).2
  simp only [BatchPooler.run] at this
  rw [this]

/-- The message a window flush produces from buffer contents `c`: data is the
in-order concatenation, the other fields come from the triggering (last)
message of the window. -/
def windowEmission (out : String) (c : List ProcessMessage) : ProcessMessage :=
  match c.getLast? with
  | some m =>
    { id := m.id, node_id := out, data := (c.map (fun x => x.data)).flatten,
      batch_id := m.batch_id, batch_total := m.batch_total }
  | none =>
    { id := 0, node_id := out, data := [], batch_id := none,
      batch_total := none }

/-- Split a list into consecutive chunks of `w + 1` elements (the final chunk
may be shorter when the length is not a multiple). -/
def chunksSucc {α : Type} (w : Nat) : List α → List (List α)
  | [] => []
  | x :: xs => List.take (w + 1) (x :: xs) :: chunksSucc w (List.drop (w + 1) (x :: xs))
  termination_by l => l.length
  decreasing_by simp [List.length_drop]; omega

theorem chunksSucc_nil {α : Type} (w : Nat) :
    chunksSucc w ([] : List α) = [] := by
  rw [chunksSucc]

theorem chunksSucc_cons {α : Type} (w : Nat) (x : α) (xs : List α) :
    chunksSucc w (x :: xs) =
      List.take (w + 1) (x :: xs) :: chunksSucc w (List.drop (w + 1) (x :: xs)) := by
  rw [chunksSucc]

theorem chunksSucc_flatten {α : Type} (w : Nat) :
    ∀ l : List α, (chunksSucc w l).flatten = l
  | [] => by rw [chunksSucc_nil]; rfl
  | x :: xs => by
      rw [chunksSucc_cons]
      simp only [List.flatten_cons]
      rw [chunksSucc_flatten w (List.drop (w + 1) (x :: xs))]
      exact List.take_append_drop _ _
  termination_by l => l.length
  decreasing_by simp [List.length_drop]; omega

theorem chunksSucc_length {α : Type} (w : Nat) :
    ∀ (N : Nat) (l : List α), l.length = N * (w + 1) →
      (chunksSucc w l).length = N := by
  intro N
  induction N with
  | zero =>
    intro l hl
    have hl0 : l.length = 0 := by simpa using hl
    have : l = [] := List.length_eq_zero.mp hl0
    subst this
    rw [chunksSucc_nil]
    rfl
  | succ k ih =>
    intro l hl
    rw [Nat.succ_mul] at hl
    rcases l with _ | ⟨x, xs⟩
    · exact absurd hl (by simp only [List.length_nil]; omega)
    · rw [chunksSucc_cons]
      simp only [List.length_cons]
      rw [ih (List.drop (w + 1) (x :: xs))
        (by simp only [List.length_drop, List.length_cons]
            simp only [List.length_cons] at hl
            omega)]

theorem chunksSucc_mem_length {α : Type} (w : Nat) :
    ∀ (N : Nat) (l : List α), l.length = N * (w + 1) →
      ∀ c ∈ chunksSucc w l, c.length = w + 1 := by
  intro N
  induction N with
  | zero =>
    intro l hl c hc
    have hl0 : l.length = 0 := by simpa using hl
    have : l = [] := List.length_eq_zero.mp hl0
    subst this
    rw [chunksSucc_nil] at hc
    simp at hc
  | succ k ih =>
    intro l hl c hc
    rw [Nat.succ_mul] at hl
    rcases l with _ | ⟨x, xs⟩
    · exact absurd hl (by simp only [List.length_nil]; omega)
    · rw [chunksSucc_cons] at hc
      rcases List.mem_cons.mp hc with h | h
      · subst h
        rw [List.length_take]
        simp only [List.length_cons] at hl ⊢
        omega
      · exact ih (List.drop (w + 1) (x :: xs))
          (by simp only [List.length_drop, List.length_cons]
              simp only [List.length_cons] at hl
              omega) c h

/-- Filling a window that has spare room appends to the buffer and emits
nothing. -/
theorem window_fill (nm out : String) (w : Nat)
    (bb : List (Nat × List ProcessMessage)) :
    ∀ (p buf : List ProcessMessage), (buf ++ p).length < w + 1 →
      BatchPooler.run
          { name := nm, output_name := out, mode := PoolingMode.Window (w + 1),
            window_buffer := buf, batch_buffers := bb } p =
        ({ name := nm, output_name := out, mode := PoolingMode.Window (w + 1),
           window_buffer := buf ++ p, batch_buffers := bb }, [])
  | [], buf, hlt => by simp [BatchPooler.run]
  | m :: rest, buf, hlt => by
      have hlt' : ¬(w + 1 ≤ (buf ++ [m]).length) := by
        simp at hlt ⊢
        omega
      have hstep : BatchPooler.handle
          { name := nm, output_name := out, mode := PoolingMode.Window (w + 1),
            window_buffer := buf, batch_buffers := bb } m =
          ({ name := nm, output_name := out, mode := PoolingMode.Window (w + 1),
             window_buffer := buf ++ [m], batch_buffers := bb }, []) := by
        simp only [BatchPooler.handle]
        rw [if_neg hlt']
      rw [pooler_run_cons, hstep]
      have ih := window_fill nm out w bb rest (buf ++ [m])
        (by simp at hlt ⊢; omega)
      simp only [ih]
      simp

/-- Processing exactly one full window from an empty buffer emits once. -/
theorem window_chunk_run (nm out : String) (w : Nat)
    (bb : List (Nat × List ProcessMessage)) (c : List ProcessMessage)
    (hc : c.length = w + 1) :
    BatchPooler.run
        { name := nm, output_name := out, mode := PoolingMode.Window (w + 1),
          window_buffer := [], batch_buffers := bb } c =
      ({ name := nm, output_name := out, mode := PoolingMode.Window (w + 1),
         window_buffer := [], batch_buffers := bb }, [windowEmission out c]) := by
  rcases List.eq_nil_or_concat c with h | ⟨p, m, hpm⟩
  · subst h; simp at hc
  · rw [List.concat_eq_append] at hpm
    subst hpm
    have hp : p.length = w := by simp at hc; omega
    rw [pooler_run_append]
    rw [window_fill nm out w bb p [] (by simp [hp])]
    have hguard : w + 1 ≤ (([] : List ProcessMessage) ++ p ++ [m]).length := by
      simp [hp]
    have hstep : BatchPooler.handle
        { name := nm, output_name := out, mode := PoolingMode.Window (w + 1),
          window_buffer := [] ++ p, batch_buffers := bb } m =
        ({ name := nm, output_name := out, mode := PoolingMode.Window (w + 1),
           window_buffer := [], batch_buffers := bb },
         [windowEmission out (p ++ [m])]) := by
      simp only [BatchPooler.handle]
      rw [if_pos (by simpa using hguard)]
      simp [windowEmission, List.getLast?_concat]
    simp only [BatchPooler.run, List.foldl_cons, List.foldl_nil, hstep]
    simp

/-- Run of a window pooler over a whole number of windows: one emission per
window, ending with an empty buffer. -/
theorem window_run_aligned (nm out : String) (w : Nat)
    (bb : List (Nat × List ProcessMessage)) :
    ∀ (N : Nat) (msgs : List ProcessMessage), msgs.length = N * (w + 1) →
      BatchPooler.run
          { name := nm, output_name := out, mode := PoolingMode.Window (w + 1),
            window_buffer := [], batch_buffers := bb } msgs =
        ({ name := nm, output_name := out, mode := PoolingMode.Window (w + 1),
           window_buffer := [], batch_buffers := bb },
         (chunksSucc w msgs).map (windowEmission out)) := by
  intro N
  induction N with
  | zero =>
    intro msgs hlen
    have : msgs = [] := List.length_eq_zero.mp (by omega)
    subst this
    simp [BatchPooler.run, chunksSucc]
  | succ k ih =>
    intro msgs hlen
    rw [Nat.succ_mul] at hlen
    rcases msgs with _ | ⟨x, xs⟩
    · exact absurd hlen (by simp only [List.length_nil]; omega)
    · have hsplit := List.take_append_drop (w + 1) (x :: xs)
      have htake : (List.take (w + 1) (x :: xs)).length = w + 1 := by
        rw [List.length_take]
        simp only [List.length_cons] at hlen ⊢
        omega
      have hdrop : (List.drop (w + 1) (x :: xs)).length = k * (w + 1) := by
        simp only [List.length_drop, List.length_cons] at hlen ⊢
        omega
      conv_lhs => rw [← hsplit]
      rw [pooler_run_append,
        window_chunk_run nm out w bb (List.take (w + 1) (x :: xs)) htake]
      simp only [ih (List.drop (w + 1) (x :: xs)) hdrop]
      rw [chunksSucc_cons]
      simp

theorem windowEmission_data (out : String) (c : List ProcessMessage) :
    (windowEmission out c).data = (c.map (fun m => m.data)).flatten := by
  cases hc : c.getLast? with
  | none =>
    have : c = [] := List.getLast?_eq_none_iff.mp hc
    subst this
    rfl
  | some m => simp [windowEmission, hc]

theorem flatten_map_windowEmission (out : String) :
    ∀ ll : List (List ProcessMessage),
      ((ll.map (windowEmission out)).map (fun e => e.data)).flatten =
        ((ll.flatten).map (fun m => m.data)).flatten
  | [] => rfl
  | c :: rest => by
      simp only [List.map_cons, List.flatten_cons, List.map_append,
        List.flatten_append, windowEmission_data,
        flatten_map_windowEmission out rest]

theorem flatten_data_length (L : Nat) :
    ∀ c : List ProcessMessage, (∀ m ∈ c, m.data.length = L) →
      ((c.map (fun m => m.data)).flatten).length = c.length * L
  | [], _ => by simp
  | m :: rest, h => by
      have hm : m.data.length = L := h m (by simp)
      have hr := flatten_data_length L rest (fun m' hm' => h m' (by simp [hm']))
      simp only [List.map_cons, List.flatten_cons, List.length_append, hm, hr,
        List.length_cons]
      rw [Nat.succ_mul]
      omega

/-- C6.  Feeding `N · W` messages of data length `L` through a Window-mode
pooler of size `W ≥ 1` from an empty buffer yields exactly `N` emissions —
one per consecutive window, each built by `windowEmission` (concatenated data
in insertion order; `id`, `batch_id`, `batch_total` from the window's
triggering message) — each of data length `W · L`, with the buffer empty
afterwards, and the concatenation of emitted data equals the concatenation of
the input data. -/
theorem pooler_window_batches (nm out : String) (W N L : Nat)
    (bb : List (Nat × List ProcessMessage)) (msgs : List ProcessMessage)
    (hW : 1 ≤ W) (hlen : msgs.length = N * W)
    (hdata : ∀ m ∈ msgs, m.data.length = L) :
    BatchPooler.run
        { name := nm, output_name := out, mode := PoolingMode.Window W,
          window_buffer := [], batch_buffers := bb } msgs =
      ({ name := nm, output_name := out, mode := PoolingMode.Window W,
         window_buffer := [], batch_buffers := bb },
       (chunksSucc (W - 1) msgs).map (windowEmission out)) ∧
    ((chunksSucc (W - 1) msgs).map (windowEmission out)).length = N ∧
    (∀ e ∈ (chunksSucc (W - 1) msgs).map (windowEmission out),
      e.data.length = W * L) ∧
    (((chunksSucc (W - 1) msgs).map (windowEmission out)).map
        (fun e => e.data)).flatten =
      (msgs.map (fun m => m.data)).flatten := by
  obtain ⟨w, rfl⟩ : ∃ w, W = w + 1 := ⟨W - 1, by omega⟩
  have hw1 : w + 1 - 1 = w := by omega
  rw [hw1]
  refine ⟨?_, ?_, ?_, ?_⟩
  · exact window_run_aligned nm out w bb N msgs hlen
  · rw [List.length_map]
    exact chunksSucc_length w N msgs hlen
  · intro e he
    rcases List.mem_map.mp he with ⟨c, hc, rfl⟩
    have hclen : c.length = w + 1 := chunksSucc_mem_length w N msgs hlen c hc
    have hcdata : ∀ m ∈ c, m.data.length = L := by
      intro m hm
      refine hdata m ?_
      rw [← chunksSucc_flatten w msgs]
      exact List.mem_flatten.mpr ⟨c, hc, hm⟩
    rw [windowEmission_data, flatten_data_length L c hcdata, hclen]
  · rw [flatten_map_windowEmission, chunksSucc_flatten]

/-- Witness for C6 at a concrete input: window size 2, four messages of
length 1: exactly two emissions. -/
theorem pooler_window_batches_witness :
    (BatchPooler.run
        { name := "p", output_name := "pooled", mode := PoolingMode.Window 2,
          window_buffer := [], batch_buffers := [] }
        [{ id := 1, node_id := "x", data := [1], batch_id := none,
           batch_total := none },
         { id := 2, node_id := "x", data := [2], batch_id := none,
           batch_total := none },
         { id := 3, node_id := "x", data := [3], batch_id := none,
           batch_total := none },
         { id := 4, node_id := "x", data := [4], batch_id := none,
           batch_total := none }]).2.length = 2 := by
  have h := pooler_window_batches "p" "pooled" 2 2 1 []
    [{ id := 1, node_id := "x", data := [1], batch_id := none,
       batch_total := none },
     { id := 2, node_id := "x", data := [2], batch_id := none,
       batch_total := none },
     { id := 3, node_id := "x", data := [3], batch_id := none,
       batch_total := none },
     { id := 4, node_id := "x", data := [4], batch_id := none,
       batch_total := none }]
    (by decide) (by decide) (by decide)
  rw [h.1]
  exact h.2.1

/-- C7.  One handler step of a BatchId-mode pooler, for any buffer state in
which every buffered message carries the `batch_id` under which it is stored:
a message with both batch fields is appended into `buffers[batch_id]`; when
the buffer reaches `batch_total` the pooler emits exactly once with `id =
batch_id`, data concatenated in insertion order, the same `batch_id`,
`batch_total =` the buffer length, and deletes the buffer (messages of other
batch ids untouched, every pooled message carrying the emitted `batch_id`);
a message missing either field leaves state unchanged and emits nothing; the
buffer-tagging invariant is preserved. -/
theorem pooler_batchid_step (nm out : String) (wb : List ProcessMessage)
    (bbs : List (Nat × List ProcessMessage)) (msg : ProcessMessage)
    (hwf : ∀ (b : Nat) (buf : List ProcessMessage),
      alookup b bbs = some buf → ∀ m ∈ buf, m.batch_id = some b) :
    ((msg.batch_id = none ∨ msg.batch_total = none) →
      BatchPooler.handle
          { name := nm, output_name := out, mode := PoolingMode.BatchId,
            window_buffer := wb, batch_buffers := bbs } msg =
        ({ name := nm, output_name := out, mode := PoolingMode.BatchId,
           window_buffer := wb, batch_buffers := bbs }, [])) ∧
    (∀ (b t : Nat), msg.batch_id = some b → msg.batch_total = some t →
      ((((alookup b bbs).getD []) ++ [msg]).length < t →
        BatchPooler.handle
            { name := nm, output_name := out, mode := PoolingMode.BatchId,
              window_buffer := wb, batch_buffers := bbs } msg =
          ({ name := nm, output_name := out, mode := PoolingMode.BatchId,
             window_buffer := wb,
             batch_buffers :=
               ainsert b (((alookup b bbs).getD []) ++ [msg]) bbs }, []) ∧
        alookup b (ainsert b (((alookup b bbs).getD []) ++ [msg]) bbs) =
          some (((alookup b bbs).getD []) ++ [msg]) ∧
        ∀ b' : Nat, b' ≠ b →
          alookup b' (ainsert b (((alookup b bbs).getD []) ++ [msg]) bbs) =
            alookup b' bbs) ∧
      (t ≤ (((alookup b bbs).getD []) ++ [msg]).length →
        BatchPooler.handle
            { name := nm, output_name := out, mode := PoolingMode.BatchId,
              window_buffer := wb, batch_buffers := bbs } msg =
          ({ name := nm, output_name := out, mode := PoolingMode.BatchId,
             window_buffer := wb,
             batch_buffers :=
               aremove b
                 (ainsert b (((alookup b bbs).getD []) ++ [msg]) bbs) },
           [{ id := b, node_id := out,
              data := ((((alookup b bbs).getD []) ++ [msg]).map
                (fun m => m.data)).flatten,
              batch_id := some b,
              batch_total := some ((((alookup b bbs).getD []) ++ [msg]).length) }]) ∧
        alookup b (aremove b
          (ainsert b (((alookup b bbs).getD []) ++ [msg]) bbs)) = none ∧
        (∀ b' : Nat, b' ≠ b →
          alookup b' (aremove b
            (ainsert b (((alookup b bbs).getD []) ++ [msg]) bbs)) =
            alookup b' bbs) ∧
        ∀ m ∈ ((alookup b bbs).getD []) ++ [msg], m.batch_id = some b)) ∧
    (∀ (b : Nat) (buf : List ProcessMessage),
      alookup b (BatchPooler.handle
          { name := nm, output_name := out, mode := PoolingMode.BatchId,
            window_buffer := wb, batch_buffers := bbs } msg).1.batch_buffers =
        some buf → ∀ m ∈ buf, m.batch_id = some b) := by
  have hbuftag : ∀ b : Nat, msg.batch_id = some b →
      ∀ m ∈ ((alookup b bbs).getD []) ++ [msg], m.batch_id = some b := by
    intro b hb m hm
    rcases List.mem_append.mp hm with h | h
    · cases hl : alookup b bbs with
      | none => rw [hl] at h; simp at h
      | some stored =>
        rw [hl] at h
        exact hwf b stored hl m (by simpa using h)
    · have : m = msg := by simpa using h
      subst this
      exact hb
  have hmain : ∀ (b t : Nat), msg.batch_id = some b → msg.batch_total = some t →
      BatchPooler.handle
          { name := nm, output_name := out, mode := PoolingMode.BatchId,
            window_buffer := wb, batch_buffers := bbs } msg =
        (if t ≤ (((alookup b bbs).getD []) ++ [msg]).length then
          ({ name := nm, output_name := out, mode := PoolingMode.BatchId,
             window_buffer := wb,
             batch_buffers :=
               aremove b
                 (ainsert b (((alookup b bbs).getD []) ++ [msg]) bbs) },
           [{ id := b, node_id := out,
              data := ((((alookup b bbs).getD []) ++ [msg]).map
                (fun m => m.data)).flatten,
              batch_id := some b,
              batch_total := some ((((alookup b bbs).getD []) ++ [msg]).length) }])
         else
          ({ name := nm, output_name := out, mode := PoolingMode.BatchId,
             window_buffer := wb,
             batch_buffers :=
               ainsert b (((alookup b bbs).getD []) ++ [msg]) bbs }, [])) := by
    intro b t hb ht
    simp only [BatchPooler.handle, hb, ht]
  refine ⟨?_, ?_, ?_⟩
  · intro h
    cases hb : msg.batch_id with
    | none =>
      cases ht : msg.batch_total with
      | none => simp only [BatchPooler.handle, hb, ht]
      | some t => simp only [BatchPooler.handle, hb, ht]
    | some b =>
      cases ht : msg.batch_total with
      | none => simp only [BatchPooler.handle, hb, ht]
      | some t =>
        rcases h with h | h
        · rw [hb] at h; cases h
        · rw [ht] at h; cases h
  · intro b t hb ht
    constructor
    · intro hlt
      have hno : ¬(t ≤ (((alookup b bbs).getD []) ++ [msg]).length) := by omega
      refine ⟨?_, alookup_ainsert_self _ _ _, ?_⟩
      · rw [hmain b t hb ht, if_neg hno]
      · intro b' hb'
        exact alookup_ainsert_ne _ hb' bbs
    · intro hge
      refine ⟨?_, alookup_aremove_self _ _, ?_, hbuftag b hb⟩
      · rw [hmain b t hb ht, if_pos hge]
      · intro b' hb'
        rw [alookup_aremove_ne hb', alookup_ainsert_ne _ hb']
  · intro b buf hbuf m hm
    cases hb : msg.batch_id with
    | none =>
      have hstep : BatchPooler.handle
          { name := nm, output_name := out, mode := PoolingMode.BatchId,
            window_buffer := wb, batch_buffers := bbs } msg =
          ({ name := nm, output_name := out, mode := PoolingMode.BatchId,
             window_buffer := wb, batch_buffers := bbs }, []) := by
        simp only [BatchPooler.handle, hb]
      rw [hstep] at hbuf
      exact hwf b buf hbuf m hm
    | some b0 =>
      cases ht : msg.batch_total with
      | none =>
        have hstep : BatchPooler.handle
            { name := nm, output_name := out, mode := PoolingMode.BatchId,
              window_buffer := wb, batch_buffers := bbs } msg =
            ({ name := nm, output_name := out, mode := PoolingMode.BatchId,
               window_buffer := wb, batch_buffers := bbs }, []) := by
          simp only [BatchPooler.handle, hb, ht]
        rw [hstep] at hbuf
        exact hwf b buf hbuf m hm
      | some t =>
        rw [hmain b0 t hb ht] at hbuf
        by_cases hc : t ≤ (((alookup b0 bbs).getD []) ++ [msg]).length
        · rw [if_pos hc] at hbuf
          simp only at hbuf
          by_cases hbb : b = b0
          · subst hbb
            rw [alookup_aremove_self] at hbuf
            cases hbuf
          · rw [alookup_aremove_ne hbb, alookup_ainsert_ne _ hbb] at hbuf
            exact hwf b buf hbuf m hm
        · rw [if_neg hc] at hbuf
          simp only at hbuf
          by_cases hbb : b = b0
          · subst hbb
            rw [alookup_ainsert_self] at hbuf
            cases hbuf
            exact hbuftag b hb m hm
          · rw [alookup_ainsert_ne _ hbb] at hbuf
            exact hwf b buf hbuf m hm

/-- Witness for C7 at a concrete input: empty buffers, a message tagged
`batch_id = 3`, `batch_total = 2`: it is buffered without emission. -/
theorem pooler_batchid_step_witness :
    BatchPooler.handle
        { name := "p", output_name := "pooled", mode := PoolingMode.BatchId,
          window_buffer := [],
          batch_buffers := [] }
        { id := 9, node_id := "x", data := [5], batch_id := some 3,
          batch_total := some 2 } =
      ({ name := "p", output_name := "pooled", mode := PoolingMode.BatchId,
         window_buffer := [],
         batch_buffers :=
           [(3, [{ id := 9, node_id := "x", data := [5], batch_id := some 3,
                   batch_total := some 2 }])] }, []) := by
  have h := pooler_batchid_step "p" "pooled" [] []
    { id := 9, node_id := "x", data := [5], batch_id := some 3,
      batch_total := some 2 }
    (by intro b buf hb; exact absurd hb (by simp [alookup]))
  have h2 := ((h.2.1 3 2 rfl rfl).1 (by simp [alookup])).1
  simpa [alookup, ainsert] using h2

/-- Fold of `f64::max` over the data from a NaN seed
(src/steps/feature_processor.rs, `data.iter().cloned().fold(f64::NAN,
f64::max)`).  `none` models the NaN seed, which `f64::max` discards at the
first element; inputs are modelled as finite (`ℚ`), so the result is NaN
exactly for empty data. -/
def foldMax (data : List ℚ) : Option ℚ :=
  data.foldl
    (fun acc x =>
      match acc with
      | none => some x
      | some m => some (max m x))
    none

/-- `FeatureProcessor::process_data` (src/steps/feature_processor.rs).  `f64`
is modelled by `ℚ` with exact division (the rounding of `f64` division is
immaterial to the properties proved here).  The Rust guard is literally
`max == 0.0 || max.is_nan()`; the NaN case is `foldMax data = none`. -/
def process_data (output_name : String) (data : List ℚ) : List ℚ :=
  if output_name = "normalized_data" then
    match foldMax data with
    | none => data
    | some m => if m = 0 then data else data.map (fun x => x / m)
  else if output_name = "encoded_data" then
    data.map (fun x => x * x)
  else
    data

theorem foldMax_go (xs : List ℚ) :
    ∀ v : ℚ,
      xs.foldl
        (fun acc x =>
          match acc with
          | none => some x
          | some m => some (max m x))
        (some v) = some (xs.foldl max v) := by
  induction xs with
  | nil => intro v; rfl
  | cons x xs ih => intro v; exact ih (max v x)

theorem foldMax_cons (x : ℚ) (xs : List ℚ) :
    foldMax (x :: xs) = some (xs.foldl max x) := by
  simp only [foldMax, List.foldl_cons]
  exact foldMax_go xs x

theorem foldl_max_spec (xs : List ℚ) :
    ∀ v : ℚ, (xs.foldl max v = v ∨ xs.foldl max v ∈ xs) ∧
      v ≤ xs.foldl max v ∧ ∀ x ∈ xs, x ≤ xs.foldl max v := by
  induction xs with
  | nil => intro v; exact ⟨Or.inl rfl, le_refl v, by simp⟩
  | cons x xs ih =>
    intro v
    obtain ⟨hmem, hle, hub⟩ := ih (max v x)
    refine ⟨?_, ?_, ?_⟩
    · rcases hmem with h | h
      · rcases max_choice v x with hc | hc
        · exact Or.inl (by rw [List.foldl_cons, h, hc])
        · exact Or.inr (by rw [List.foldl_cons, h, hc]; simp)
      · exact Or.inr (by simp [h])
    · calc v ≤ max v x := le_max_left v x
        _ ≤ xs.foldl max (max v x) := hle
    · intro y hy
      rcases List.mem_cons.mp hy with h | h
      · subst h
        calc y ≤ max v y := le_max_right v y
          _ ≤ xs.foldl max (max v y) := hle
      · exact hub y h

theorem foldMax_spec (data : List ℚ) (m : ℚ) (h : foldMax data = some m) :
    m ∈ data ∧ ∀ x ∈ data, x ≤ m := by
  rcases data with _ | ⟨x, xs⟩
  · cases h
  · rw [foldMax_cons] at h
    obtain rfl : xs.foldl max x = m := by injection h
    obtain ⟨hmem, hle, hub⟩ := foldl_max_spec xs x
    constructor
    · rcases hmem with h' | h'
      · rw [h']; simp
      · simp [h']
    · intro y hy
      rcases List.mem_cons.mp hy with h' | h'
      · subst h'; exact hle
      · exact hub y h'

theorem foldMax_eq_none_iff (data : List ℚ) :
    foldMax data = none ↔ data = [] := by
  rcases data with _ | ⟨x, xs⟩
  · simp [foldMax]
  · rw [foldMax_cons]
    simp

/-- C4 (amended).  The `normalized_data` transform emits the element-wise
division of the data by its maximum element except when the maximum is zero
or NaN (which, for finite inputs, means empty data), in which case it emits
the original data unchanged.  A negative (or otherwise nonzero) maximum still
divides — the code guards only `max == 0.0 || max.is_nan()`, not every
non-positive or non-finite maximum. -/
theorem process_data_normalized (data : List ℚ) :
    (foldMax data = none → data = [] ∧
      process_data "normalized_data" data = data) ∧
    (∀ m : ℚ, foldMax data = some m →
      (m ∈ data ∧ ∀ x ∈ data, x ≤ m) ∧
      (m = 0 → process_data "normalized_data" data = data) ∧
      (m ≠ 0 → process_data "normalized_data" data =
        data.map (fun x => x / m))) := by
  constructor
  · intro h
    refine ⟨(foldMax_eq_none_iff data).mp h, ?_⟩
    simp [process_data, h]
  · intro m h
    refine ⟨foldMax_spec data m h, ?_, ?_⟩
    · intro hm
      simp [process_data, h, hm]
    · intro hm
      simp [process_data, h, hm]

/-- Witness for C4 (amended) at a concrete input: data `[2, 4]` has maximum
`4` and is emitted divided through by it. -/
theorem process_data_normalized_witness :
    process_data "normalized_data" [2, 4] = [1/2, 1] := by
  have hmax : foldMax [(2 : ℚ), 4] = some 4 := by
    rw [foldMax_cons]
    simp only [List.foldl_cons, List.foldl_nil]
    rw [max_eq_right (by norm_num)]
  have h := ((process_data_normalized [2, 4]).2 4 hmax).2.2 (by norm_num)
  rw [h]
  norm_num

/-- Counterexample to C4 as stated: on data `[-2, -1]` the maximum `-1` is
negative (non-positive), yet the code divides by it instead of emitting the
original data, producing `[2, 1]`. -/
theorem process_data_negative_max_counterexample :
    foldMax [(-2 : ℚ), -1] = some (-1) ∧ ((-1 : ℚ) ≤ 0) ∧
    process_data "normalized_data" [(-2 : ℚ), -1] = [2, 1] ∧
    process_data "normalized_data" [(-2 : ℚ), -1] ≠ [(-2 : ℚ), -1] := by
  have hmax : foldMax [(-2 : ℚ), -1] = some (-1) := by
    rw [foldMax_cons]
    simp only [List.foldl_cons, List.foldl_nil]
    rw [max_eq_right (by norm_num)]
  have hproc : process_data "normalized_data" [(-2 : ℚ), -1] = [2, 1] := by
    simp [process_data, hmax, (by norm_num : ¬((-1 : ℚ) = 0))]
  refine ⟨hmax, by norm_num, hproc, ?_⟩
  rw [hproc]
  intro h
  injection h with h1 h2
  norm_num at h1

/-- Outcome phase of the ingress handler visible before any reply arrives. -/
inductive HttpPhase
  | awaitingReply
  | badRequest
deriving DecidableEq

/-- `handle_http_request` (src/http_input_handler.rs) up to its first
suspension (the reply await): the generated `request_id` and the parsed
feature vector are parameters (randomness and JSON parsing are external);
the registry (`sender_map : DashMap<u64, Sender>`) is modelled by the list
of registered request ids, the reply channels themselves being opaque.
Returns the updated registry, the messages sent to the coordinator, and the
phase reached. -/
def handle_http_request (request_id : Nat) (features : List ℚ)
    (sender_map : Option (List Nat)) :
    Option (List Nat) × List ProcessMessage × HttpPhase :=
  match sender_map with
  | some m =>
    (some (m ++ [request_id]),
     [{ id := request_id, node_id := "http_input", data := features,
        batch_id := some request_id, batch_total := some 1 }],
     HttpPhase.awaitingReply)
  | none => (none, [], HttpPhase.badRequest)

/-- C5 (amended).  With a registry present, each inbound request registers
its generated request id and emits exactly one message with
`node_id = "http_input"`, `id = request_id`, `data` the parsed features,
`batch_id = request_id` (not `1`) and `batch_total = 1`. -/
theorem http_input_emits_once (request_id : Nat) (features : List ℚ)
    (m : List Nat) :
    handle_http_request request_id features (some m) =
      (some (m ++ [request_id]),
       [{ id := request_id, node_id := "http_input", data := features,
          batch_id := some request_id, batch_total := some 1 }],
       HttpPhase.awaitingReply) ∧
    request_id ∈ m ++ [request_id] := by
  exact ⟨rfl, by simp⟩

/-- Counterexample to C5 as stated: for generated request id `7` the emitted
message carries `batch_id = Some 7`, not `batch_id = 1`. -/
theorem http_input_batch_id_counterexample :
    ((handle_http_request 7 [1] (some [])).2.1.map (fun m => m.batch_id)) =
      [some 7] ∧ (some 7 : Option Nat) ≠ some 1 := by
  decide

/-- The fields of the free-form JSON `params` object that the validator and
the pooler read.  `none` models a field that is absent or of the wrong JSON
type (the source reads them with `get(..).and_then(as_str / as_u64 /
as_bool)`, which yields `None` in both cases). -/
structure StepParams where
  mode : Option String
  window_size : Option Nat
  batch_mode : Option Bool
deriving DecidableEq

/-- `StepConfig` (src/config.rs): one step declaration. -/
structure StepConfig where
  name : String
  node_type : String
  inputs : List String
  outputs : List String
  params : StepParams
deriving DecidableEq

/-- `Config` (src/config.rs): the declared graph. -/
structure Config where
  steps : List StepConfig
  http_mode : Bool
deriving DecidableEq

/-- Mode selection of `BatchPooler::new_from_params`
(src/steps/batch_pooler.rs lines 46-56): a readable `window_size` chooses
`Window`; its absence chooses `BatchId`. -/
def new_from_params_mode (p : StepParams) : PoolingMode :=
  match p.window_size with
  | some size => PoolingMode.Window size
  | none => PoolingMode.BatchId

/-- The configuration errors `Coordinator::validate_config` can push, one
constructor per `format!` site (src/coordinator.rs lines 207-321); the
rendered strings are determined by the payloads. -/
inductive ValidationError
  | batchPoolerNoBatchGenerator (name : String)
  | sourceCount (n : Nat)
  | sinkCount (n : Nat)
  | cyclic
  | noProducer (stepName : String)
  | httpTooManyNoProducer (n : Nat) (names : List String)
  | duplicateName (name : String)
deriving DecidableEq

/-- Whether some `DataGenerator` step has `batch_mode: true`
(src/coordinator.rs lines 220-226).  Note the source checks only
`DataGenerator` steps, not every source kind. -/
def hasBatchGenerator (cfg : Config) : Bool :=
  cfg.steps.any
    (fun s => s.node_type = "DataGenerator" ∧ s.params.batch_mode.getD false = true)

/-- Check 1 of `validate_config`: a `BatchPooler` whose `mode` *param string*
is `"BatchId"` (defaulting to `"Window"` when absent) without a batch-mode
`DataGenerator` (src/coordinator.rs lines 210-236). -/
def poolerErrors (cfg : Config) : List ValidationError :=
  cfg.steps.filterMap
    (fun step =>
      if step.node_type = "BatchPooler" ∧
          step.params.mode.getD "Window" = "BatchId" ∧
          hasBatchGenerator cfg = false then
        some (ValidationError.batchPoolerNoBatchGenerator step.name)
      else none)

/-- Source/sink counting errors (src/coordinator.rs lines 238-263). -/
def shapeErrors (cfg : Config) : List ValidationError :=
  (if ¬cfg.http_mode = true ∧
      (cfg.steps.filter (fun s => s.inputs = ([] : List String))).length ≠ 1 then
    [ValidationError.sourceCount
      (cfg.steps.filter (fun s => s.inputs = ([] : List String))).length]
  else []) ++
  (if (cfg.steps.filter (fun s => s.outputs = ([] : List String))).length ≠ 1 then
    [ValidationError.sinkCount
      (cfg.steps.filter (fun s => s.outputs = ([] : List String))).length]
  else [])

/-- The adjacency table `input name → [consuming step names]` that both
`Coordinator::new` and `Coordinator::has_cycles` build
(src/coordinator.rs lines 67-76 and 328-336). -/
def buildAdjacency (cfg : Config) : List (String × List String) :=
  cfg.steps.foldl
    (fun adj step =>
      step.inputs.foldl
        (fun adj input =>
          ainsert input (((alookup input adj).getD []) ++ [step.name]) adj)
        adj)
    []

/-- `Coordinator::detect_cycle_util` (src/coordinator.rs lines 349-374),
with explicit `visited` / `rec_stack` threading in place of `&mut` sets.
The extra `fuel` argument only forces structural termination: each nested
call is on a node it immediately marks visited, nodes are step names, so the
recursion depth never exceeds the number of steps and the `fuel = 0` branch
is unreachable for the fuel `has_cycles` supplies. -/
def detect_cycle_util (adj : List (String × List String)) :
    Nat → String → List String → List String →
      Bool × List String × List String
  | 0, _, visited, rec_stack => (true, visited, rec_stack)
  | fuel + 1, node, visited, rec_stack =>
    if node ∈ visited then
      (false, visited, rec_stack.filter (fun s => s ≠ node))
    else
      let visited1 := visited ++ [node]
      let rec1 := rec_stack ++ [node]
      let r :=
        ((alookup node adj).getD []).foldl
          (fun (acc : Bool × List String × List String) nb =>
            if acc.1 then acc
            else if nb ∈ acc.2.1 then
              if nb ∈ acc.2.2 then (true, acc.2.1, acc.2.2) else acc
            else
              let r' := detect_cycle_util adj fuel nb acc.2.1 acc.2.2
              if r'.1 then r'
              else if nb ∈ r'.2.2 then (true, r'.2.1, r'.2.2)
              else (false, r'.2.1, r'.2.2))
          (false, visited1, rec1)
      if r.1 then r
      else (false, r.2.1, r.2.2.filter (fun s => s ≠ node))

/-- `Coordinator::has_cycles` (src/coordinator.rs lines 324-346): depth-first
search from every step name over the `input name → step name` table, with
`visited` / `rec_stack` carried across starting points. -/
def has_cycles (cfg : Config) : Bool :=
  (cfg.steps.foldl
    (fun (acc : Bool × List String × List String) step =>
      if acc.1 then acc
      else detect_cycle_util (buildAdjacency cfg) (cfg.steps.length + 1)
        step.name acc.2.1 acc.2.2)
    (false, [], [])).1

def cycleErrors (cfg : Config) : List ValidationError :=
  if has_cycles cfg = true then [ValidationError.cyclic] else []

/-- All strings produced by some step's `outputs`
(src/coordinator.rs lines 269-273). -/
def allProducers (cfg : Config) : List String :=
  (cfg.steps.map (fun s => s.outputs)).flatten

/-- `steps_with_no_producer`: one entry (the consuming step's name) per input
occurrence without a producer (src/coordinator.rs lines 274-283). -/
def stepsWithNoProducer (cfg : Config) : List String :=
  (cfg.steps.map
    (fun step =>
      step.inputs.filterMap
        (fun input =>
          if input ∈ allProducers cfg then none else some step.name))).flatten

/-- Missing-producer errors (src/coordinator.rs lines 285-304). -/
def producerErrors (cfg : Config) : List ValidationError :=
  if cfg.http_mode then
    if 1 < (stepsWithNoProducer cfg).length then
      [ValidationError.httpTooManyNoProducer (stepsWithNoProducer cfg).length
        (stepsWithNoProducer cfg)]
    else []
  else (stepsWithNoProducer cfg).map ValidationError.noProducer

/-- Duplicate-name errors: one per re-insertion failure while folding the
names into a set (src/coordinator.rs lines 306-314). -/
def dupNameAux : List StepConfig → List String →
    List String × List ValidationError
  | [], seen => (seen, [])
  | step :: rest, seen =>
    if step.name ∈ seen then
      ((dupNameAux rest seen).1,
       ValidationError.duplicateName step.name :: (dupNameAux rest seen).2)
    else
      dupNameAux rest (seen ++ [step.name])

def dupNameErrors (cfg : Config) : List ValidationError :=
  (dupNameAux cfg.steps []).2

/-- `Coordinator::validate_config` (src/coordinator.rs lines 207-321): the
error list accumulated across all six checks, in push order; the source
returns `Ok(())` exactly when this list is empty. -/
def validate_config (cfg : Config) : List ValidationError :=
  poolerErrors cfg ++ shapeErrors cfg ++ cycleErrors cfg ++
    producerErrors cfg ++ dupNameErrors cfg

theorem shapeErrors_shape (cfg : Config) :
    ∀ e ∈ shapeErrors cfg,
      (∃ n, e = ValidationError.sourceCount n) ∨
      (∃ n, e = ValidationError.sinkCount n) := by
  intro e he
  unfold shapeErrors at he
  rw [List.mem_append] at he
  rcases he with he | he
  · split_ifs at he
    · exact Or.inl ⟨_, by simpa using he⟩
    · simp at he
  · split_ifs at he
    · exact Or.inr ⟨_, by simpa using he⟩
    · simp at he

theorem cycleErrors_shape (cfg : Config) :
    ∀ e ∈ cycleErrors cfg, e = ValidationError.cyclic := by
  intro e he
  unfold cycleErrors at he
  split_ifs at he
  · simpa using he
  · simp at he

theorem producerErrors_shape (cfg : Config) :
    ∀ e ∈ producerErrors cfg,
      (∃ nm, e = ValidationError.noProducer nm) ∨
      (∃ n nms, e = ValidationError.httpTooManyNoProducer n nms) := by
  intro e he
  unfold producerErrors at he
  split_ifs at he
  · exact Or.inr ⟨_, _, by simpa using he⟩
  · simp at he
  · rcases List.mem_map.mp he with ⟨nm, _, rfl⟩
    exact Or.inl ⟨nm, rfl⟩

theorem dupNameAux_shape :
    ∀ (steps : List StepConfig) (seen : List String),
      ∀ e ∈ (dupNameAux steps seen).2,
        ∃ nm, e = ValidationError.duplicateName nm
  | [], _, e, he => by simp [dupNameAux] at he
  | step :: rest, seen, e, he => by
      unfold dupNameAux at he
      split_ifs at he
      · rcases List.mem_cons.mp he with h | h
        · exact ⟨step.name, h⟩
        · exact dupNameAux_shape rest seen e h
      · exact dupNameAux_shape rest (seen ++ [step.name]) e he

/-- A `batchPoolerNoBatchGenerator` error is in the validator output exactly
when it is in the pooler segment: no other check pushes this constructor. -/
theorem mem_validate_batchPooler (cfg : Config) (nm : String) :
    ValidationError.batchPoolerNoBatchGenerator nm ∈ validate_config cfg ↔
      ValidationError.batchPoolerNoBatchGenerator nm ∈ poolerErrors cfg := by
  unfold validate_config
  simp only [List.mem_append]
  constructor
  · intro h
    rcases h with ((((h | h) | h) | h) | h)
    · exact h
    · rcases shapeErrors_shape cfg _ h with ⟨n, hn⟩ | ⟨n, hn⟩ <;> cases hn
    · cases cycleErrors_shape cfg _ h
    · rcases producerErrors_shape cfg _ h with ⟨n, hn⟩ | ⟨n, nms, hn⟩ <;>
        cases hn
    · rcases dupNameAux_shape cfg.steps [] _ h with ⟨n, hn⟩
      cases hn
  · intro h
    exact Or.inl (Or.inl (Or.inl (Or.inl h)))

/-- C3 (amended).  The validator flags a `BatchPooler` exactly when its
`mode` *param string* equals `"BatchId"` (defaulting to `"Window"` when the
param is absent — not when `window_size` is absent, which is what selects
`BatchId` in the pooler itself) and no `DataGenerator` step (the only source
kind inspected) has `batch_mode: true`. -/
theorem validator_batchid_param_check (cfg : Config) :
    (∀ step ∈ cfg.steps, step.node_type = "BatchPooler" →
      step.params.mode.getD "Window" = "BatchId" →
      hasBatchGenerator cfg = false →
      ValidationError.batchPoolerNoBatchGenerator step.name ∈
        validate_config cfg) ∧
    (∀ nm : String,
      ValidationError.batchPoolerNoBatchGenerator nm ∈ validate_config cfg →
      ∃ step ∈ cfg.steps, step.name = nm ∧ step.node_type = "BatchPooler" ∧
        step.params.mode.getD "Window" = "BatchId" ∧
        hasBatchGenerator cfg = false) := by
  constructor
  · intro step hstep hty hmode hgen
    rw [mem_validate_batchPooler]
    unfold poolerErrors
    rw [List.mem_filterMap]
    exact ⟨step, hstep, by rw [if_pos ⟨hty, hmode, hgen⟩]⟩
  · intro nm h
    rw [mem_validate_batchPooler] at h
    unfold poolerErrors at h
    rw [List.mem_filterMap] at h
    rcases h with ⟨step, hstep, hif⟩
    by_cases hc : step.node_type = "BatchPooler" ∧
        step.params.mode.getD "Window" = "BatchId" ∧
        hasBatchGenerator cfg = false
    · rw [if_pos hc] at hif
      injection hif with h1
      injection h1 with hnm
      exact ⟨step, hstep, hnm, hc.1, hc.2.1, hc.2.2⟩
    · rw [if_neg hc] at hif
      cases hif

/-- A pooler with neither `window_size` nor `mode` param: `BatchId` mode by
the pooler's own rule, `"Window"` in the validator's eyes. -/
def cfgBatchIdMiss : Config :=
  { steps :=
      [{ name := "g", node_type := "DataGenerator", inputs := [],
         outputs := ["raw"],
         params := { mode := none, window_size := none, batch_mode := none } },
       { name := "p", node_type := "BatchPooler", inputs := ["raw"],
         outputs := ["pooled"],
         params := { mode := none, window_size := none, batch_mode := none } },
       { name := "pr", node_type := "Printer", inputs := ["pooled"],
         outputs := [],
         params := { mode := none, window_size := none, batch_mode := none } }],
    http_mode := false }

/-- Counterexample to C3 as stated: this pooler is in `BatchId` mode by the
pooler's own parameter rule (no `window_size`), no source has batch emission
enabled, yet the validator — which keys on the `mode` param string defaulting
to `"Window"` — reports nothing at all. -/
theorem validator_batchid_counterexample :
    new_from_params_mode
        { mode := none, window_size := none, batch_mode := none } =
      PoolingMode.BatchId ∧
    hasBatchGenerator cfgBatchIdMiss = false ∧
    (∀ s ∈ cfgBatchIdMiss.steps, s.params.batch_mode.getD false = false) ∧
    validate_config cfgBatchIdMiss = [] := by
  decide

/-- A pooler whose `mode` param string is `"BatchId"`, with no batch-mode
generator: the configuration the validator does flag. -/
def cfgBatchIdParam : Config :=
  { steps :=
      [{ name := "g", node_type := "DataGenerator", inputs := [],
         outputs := ["raw"],
         params := { mode := none, window_size := none, batch_mode := none } },
       { name := "p", node_type := "BatchPooler", inputs := ["raw"],
         outputs := ["pooled"],
         params := { mode := some "BatchId", window_size := none,
                     batch_mode := none } },
       { name := "pr", node_type := "Printer", inputs := ["pooled"],
         outputs := [],
         params := { mode := none, window_size := none, batch_mode := none } }],
    http_mode := false }

/-- Witness for C3 (amended) at a concrete input: the `"BatchId"`-param
pooler without a batch generator is reported. -/
theorem validator_batchid_param_check_witness :
    ValidationError.batchPoolerNoBatchGenerator "p" ∈
      validate_config cfgBatchIdParam := by
  exact (validator_batchid_param_check cfgBatchIdParam).1
    { name := "p", node_type := "BatchPooler", inputs := ["raw"],
      outputs := ["pooled"],
      params := { mode := some "BatchId", window_size := none,
                  batch_mode := none } }
    (by decide) (by decide) (by decide) (by decide)

/-- A graph with a genuine cycle through output names: `a` consumes `o2` and
produces `o1`; `b` consumes `o1` and produces `o2`. -/
def cfgCyclic : Config :=
  { steps :=
      [{ name := "src", node_type := "DataGenerator", inputs := [],
         outputs := ["s"],
         params := { mode := none, window_size := none, batch_mode := none } },
       { name := "a", node_type := "FeatureProcessor", inputs := ["s", "o2"],
         outputs := ["o1"],
         params := { mode := none, window_size := none, batch_mode := none } },
       { name := "b", node_type := "FeatureProcessor", inputs := ["o1"],
         outputs := ["o2"],
         params := { mode := none, window_size := none, batch_mode := none } },
       { name := "snk", node_type := "Printer", inputs := ["o1"],
         outputs := [],
         params := { mode := none, window_size := none, batch_mode := none } }],
    http_mode := false }

/-- C8.  `cfgCyclic` contains a two-step cycle along the spec's edges
(`output → downstream step`), yet `has_cycles` — whose DFS walks
`input name → consuming step name` entries and never resolves a step's
outputs — misses it, and the validator reports no error at all: the returned
error set does not contain every violation. -/
theorem validator_accepts_cyclic_graph :
    (∃ s1 ∈ cfgCyclic.steps, ∃ s2 ∈ cfgCyclic.steps,
      s1.name ≠ s2.name ∧
      (∃ o ∈ s1.outputs, o ∈ s2.inputs) ∧
      (∃ o ∈ s2.outputs, o ∈ s1.inputs)) ∧
    has_cycles cfgCyclic = false ∧
    validate_config cfgCyclic = [] := by
  decide

theorem alookup_append_of_none {α β : Type} [DecidableEq α] (k : α)
    (m₂ : List (α × β)) :
    ∀ m₁ : List (α × β), alookup k m₁ = none →
      alookup k (m₁ ++ m₂) = alookup k m₂
  | [], _ => rfl
  | (a, b) :: rest, h => by
      by_cases hk : k = a
      · simp [alookup, hk] at h
      · simp only [alookup, if_neg hk] at h
        simpa [alookup, hk] using alookup_append_of_none k m₂ rest h

theorem ainsert_of_none {α β : Type} [DecidableEq α] (k : α) (v : β) :
    ∀ m : List (α × β), alookup k m = none → ainsert k v m = m ++ [(k, v)]
  | [], _ => rfl
  | (a, b) :: rest, h => by
      by_cases hk : k = a
      · simp [alookup, hk] at h
      · have ha : ¬a = k := fun hh => hk hh.symm
        simp only [alookup, if_neg hk] at h
        simp [ainsert, ha, ainsert_of_none k v rest h]

/-- The step kinds the coordinator can instantiate
(src/coordinator.rs `StepActor`). -/
inductive StepKind
  | featureProcessor
  | pyFeatureProcessor
  | mlModel
  | dataGenerator
  | csvReader
  | stepJoinPoint
  | batchPooler
  | printer
  | httpOutput
deriving DecidableEq

/-- Outcome of `Coordinator::create_step_actor` for one declaration:
`created` is `Some(actor)`, `skipped` is `None` (the caller just does not
register a handle), and `panicked` is an out-of-bounds index aborting the
process. -/
inductive SpawnOutcome
  | created (k : StepKind)
  | skipped
  | panicked
deriving DecidableEq

/-- `Coordinator::create_step_actor` (src/coordinator.rs lines 85-194):
which declarations produce an actor.  Most kinds require `outputs.get(0)`
and are skipped (`None`) when it is absent; `Printer` always constructs;
`HttpOutput` requires the registry (`sender_map`) and is skipped without it;
an unknown type is skipped with a warning.  `CsvReader` instead indexes
`step.outputs[0]` (src/coordinator.rs line 130), which panics when `outputs`
is empty. -/
def create_step_actor (sender_map_present : Bool) (step : StepConfig) :
    SpawnOutcome :=
  match step.node_type with
  | "FeatureProcessor" =>
    match step.outputs.head? with
    | some _ => SpawnOutcome.created StepKind.featureProcessor
    | none => SpawnOutcome.skipped
  | "PyFeatureProcessor" =>
    match step.outputs.head? with
    | some _ => SpawnOutcome.created StepKind.pyFeatureProcessor
    | none => SpawnOutcome.skipped
  | "MLModel" =>
    match step.outputs.head? with
    | some _ => SpawnOutcome.created StepKind.mlModel
    | none => SpawnOutcome.skipped
  | "DataGenerator" =>
    match step.outputs.head? with
    | some _ => SpawnOutcome.created StepKind.dataGenerator
    | none => SpawnOutcome.skipped
  | "CsvReader" =>
    match step.outputs.head? with
    | some _ => SpawnOutcome.created StepKind.csvReader
    | none => SpawnOutcome.panicked
  | "StepJoinPoint" =>
    match step.outputs.head? with
    | some _ => SpawnOutcome.created StepKind.stepJoinPoint
    | none => SpawnOutcome.skipped
  | "BatchPooler" =>
    match step.outputs.head? with
    | some _ => SpawnOutcome.created StepKind.batchPooler
    | none => SpawnOutcome.skipped
  | "Printer" => SpawnOutcome.created StepKind.printer
  | "HttpOutput" =>
    if sender_map_present then SpawnOutcome.created StepKind.httpOutput
    else SpawnOutcome.skipped
  | _ => SpawnOutcome.skipped

/-- One iteration of the `spawn_actors` loop.  A `none` accumulator means a
previous declaration panicked the process: nothing further runs. -/
def spawn_step (sender_map_present : Bool)
    (acc : Option (List (String × StepKind))) (step : StepConfig) :
    Option (List (String × StepKind)) :=
  match acc with
  | none => none
  | some actors =>
    match create_step_actor sender_map_present step with
    | SpawnOutcome.created a => some (ainsert step.name a actors)
    | SpawnOutcome.skipped => some actors
    | SpawnOutcome.panicked => none

/-- `Coordinator::spawn_actors` (src/coordinator.rs lines 196-204): register
a handle per constructed declaration, keyed by step name, in declaration
order; `none` when a declaration panics the process midway. -/
def spawn_actors (sender_map_present : Bool) (cfg : Config) :
    Option (List (String × StepKind)) :=
  cfg.steps.foldl (spawn_step sender_map_present) (some [])

/-- The Initialize handler of the coordinator (src/coordinator.rs lines
377-390): on validation success spawn the actors; on failure every error is
logged, the system is stopped and the actors map stays empty (`some []`);
`none` is a panic during spawning. -/
def handle_initialize_msg (sender_map_present : Bool) (cfg : Config) :
    Option (List (String × StepKind)) :=
  match validate_config cfg with
  | [] => spawn_actors sender_map_present cfg
  | _ => some []

theorem dupNameAux_nil (steps : List StepConfig) :
    ∀ seen : List String, (dupNameAux steps seen).2 = [] →
      (∀ s ∈ steps, s.name ∉ seen) ∧
      (steps.map (fun s => s.name)).Nodup := by
  induction steps with
  | nil => intro seen _; exact ⟨by simp, by simp⟩
  | cons step rest ih =>
    intro seen h
    unfold dupNameAux at h
    split_ifs at h with hmem
    obtain ⟨hnot, hnd⟩ := ih (seen ++ [step.name]) h
    refine ⟨?_, ?_⟩
    · intro s hs
      rcases List.mem_cons.mp hs with h' | h'
      · subst h'; exact hmem
      · intro hcontra
        exact hnot s h' (by simp [hcontra])
    · rw [List.map_cons, List.nodup_cons]
      refine ⟨?_, hnd⟩
      intro hcontra
      rcases List.mem_map.mp hcontra with ⟨s, hs, hname⟩
      exact hnot s hs (by simp [hname])

theorem validate_nil_nodup (cfg : Config) (h : validate_config cfg = []) :
    (cfg.steps.map (fun s => s.name)).Nodup := by
  unfold validate_config at h
  simp only [List.append_eq_nil] at h
  exact (dupNameAux_nil cfg.steps [] h.2).2

theorem spawn_fold_none (smp : Bool) :
    ∀ steps : List StepConfig,
      steps.foldl (spawn_step smp) none = none
  | [] => rfl
  | step :: rest => by
      rw [List.foldl_cons]
      exact spawn_fold_none smp rest

/-- A panicking declaration anywhere in the remaining list aborts the spawn
loop. -/
theorem spawn_fold_panic (smp : Bool) :
    ∀ (steps : List StepConfig) (actors : List (String × StepKind)),
      (∃ step ∈ steps, create_step_actor smp step = SpawnOutcome.panicked) →
      steps.foldl (spawn_step smp) (some actors) = none := by
  intro steps
  induction steps with
  | nil => intro actors h; simp at h
  | cons step rest ih =>
    intro actors h
    cases hcr : create_step_actor smp step with
    | panicked =>
      rw [List.foldl_cons]
      have hstep : spawn_step smp (some actors) step = none := by
        simp [spawn_step, hcr]
      rw [hstep]
      exact spawn_fold_none smp rest
    | created a =>
      have hrest : ∃ s ∈ rest, create_step_actor smp s = SpawnOutcome.panicked := by
        rcases h with ⟨s, hs, hps⟩
        rcases List.mem_cons.mp hs with h' | h'
        · subst h'; rw [hcr] at hps; cases hps
        · exact ⟨s, h', hps⟩
      rw [List.foldl_cons]
      have hstep : spawn_step smp (some actors) step =
          some (ainsert step.name a actors) := by
        simp [spawn_step, hcr]
      rw [hstep]
      exact ih _ hrest
    | skipped =>
      have hrest : ∃ s ∈ rest, create_step_actor smp s = SpawnOutcome.panicked := by
        rcases h with ⟨s, hs, hps⟩
        rcases List.mem_cons.mp hs with h' | h'
        · subst h'; rw [hcr] at hps; cases hps
        · exact ⟨s, h', hps⟩
      rw [List.foldl_cons]
      have hstep : spawn_step smp (some actors) step = some actors := by
        simp [spawn_step, hcr]
      rw [hstep]
      exact ih _ hrest

/-- Without a panicking declaration, the spawn loop appends one registered
handle per `created` declaration, in declaration order. -/
theorem spawn_fold_ok (smp : Bool) :
    ∀ (steps : List StepConfig) (actors : List (String × StepKind)),
      (∀ step ∈ steps, create_step_actor smp step ≠ SpawnOutcome.panicked) →
      (∀ step ∈ steps, alookup step.name actors = none) →
      (steps.map (fun s => s.name)).Nodup →
      steps.foldl (spawn_step smp) (some actors) =
        some (actors ++ steps.filterMap
          (fun step =>
            match create_step_actor smp step with
            | SpawnOutcome.created a => some (step.name, a)
            | _ => none)) := by
  intro steps
  induction steps with
  | nil => intro actors _ _ _; simp
  | cons step rest ih =>
    intro actors hnp hnone hnd
    rw [List.map_cons, List.nodup_cons] at hnd
    cases hcr : create_step_actor smp step with
    | panicked => exact absurd hcr (hnp step (by simp))
    | skipped =>
      rw [List.foldl_cons, List.filterMap_cons]
      have hstep : spawn_step smp (some actors) step = some actors := by
        simp [spawn_step, hcr]
      rw [hstep, hcr]
      exact ih actors (fun s hs => hnp s (by simp [hs]))
        (fun s hs => hnone s (by simp [hs])) hnd.2
    | created a =>
      rw [List.foldl_cons, List.filterMap_cons]
      have hstep : spawn_step smp (some actors) step =
          some (ainsert step.name a actors) := by
        simp [spawn_step, hcr]
      rw [hstep, hcr]
      rw [ainsert_of_none step.name a actors (hnone step (by simp))]
      rw [ih (actors ++ [(step.name, a)]) (fun s hs => hnp s (by simp [hs]))
        ?hrest hnd.2]
      · simp
      · intro s hs
        rw [alookup_append_of_none s.name [(step.name, a)] actors
          (hnone s (by simp [hs]))]
        have hne : s.name ≠ step.name := by
          intro hcontra
          exact hnd.1 (List.mem_map.mpr ⟨s, hs, hcontra⟩)
        simp [alookup, hne]

/-- C9 (amended).  If validation fails, Initialize instantiates no step (the
actors map stays empty); on success it instantiates one step per *created*
declaration — recognized type, an output name where the kind requires one, a
registry for `HttpOutput` — in declaration order, silently skipping the
declarations whose kind yields no actor; except that a `CsvReader` declared
without outputs panics the process midway through spawning. -/
theorem initialize_atomic_or_constructible (smp : Bool) (cfg : Config) :
    (validate_config cfg ≠ [] → handle_initialize_msg smp cfg = some []) ∧
    (validate_config cfg = [] →
      ((∀ step ∈ cfg.steps,
          create_step_actor smp step ≠ SpawnOutcome.panicked) →
        handle_initialize_msg smp cfg =
          some (cfg.steps.filterMap
            (fun step =>
              match create_step_actor smp step with
              | SpawnOutcome.created a => some (step.name, a)
              | _ => none))) ∧
      ((∃ step ∈ cfg.steps,
          create_step_actor smp step = SpawnOutcome.panicked) →
        handle_initialize_msg smp cfg = none)) := by
  constructor
  · intro h
    unfold handle_initialize_msg
    cases hv : validate_config cfg with
    | nil => exact absurd hv h
    | cons e es => rfl
  · intro h
    constructor
    · intro hnp
      unfold handle_initialize_msg
      rw [h]
      unfold spawn_actors
      rw [spawn_fold_ok smp cfg.steps [] hnp (fun s _ => rfl)
        (validate_nil_nodup cfg h)]
      rfl
    · intro hp
      unfold handle_initialize_msg
      rw [h]
      unfold spawn_actors
      rw [spawn_fold_panic smp cfg.steps [] hp]

/-- A validating graph whose source declaration has an unrecognized type. -/
def cfgUnknownType : Config :=
  { steps :=
      [{ name := "A", node_type := "Bogus", inputs := [], outputs := ["x"],
         params := { mode := none, window_size := none, batch_mode := none } },
       { name := "B", node_type := "Printer", inputs := ["x"], outputs := [],
         params := { mode := none, window_size := none, batch_mode := none } }],
    http_mode := false }

/-- Counterexample to C9 as stated: the validator accepts this two-step
graph (it never checks types), yet Initialize registers only one actor —
the unknown-typed declaration is skipped, so success does not give one step
per declaration. -/
theorem initialize_unknown_type_counterexample :
    validate_config cfgUnknownType = [] ∧
    cfgUnknownType.steps.length = 2 ∧
    handle_initialize_msg false cfgUnknownType =
      some [("B", StepKind.printer)] := by
  decide

/-- A fully constructible two-step graph. -/
def cfgSmall : Config :=
  { steps :=
      [{ name := "A", node_type := "DataGenerator", inputs := [],
         outputs := ["x"],
         params := { mode := none, window_size := none, batch_mode := none } },
       { name := "B", node_type := "Printer", inputs := ["x"], outputs := [],
         params := { mode := none, window_size := none, batch_mode := none } }],
    http_mode := false }

/-- A validating graph whose sink is a `CsvReader` with no outputs: spawning
it panics at `step.outputs[0]`. -/
def cfgCsvNoOutput : Config :=
  { steps :=
      [{ name := "A", node_type := "DataGenerator", inputs := [],
         outputs := ["x"],
         params := { mode := none, window_size := none, batch_mode := none } },
       { name := "B", node_type := "CsvReader", inputs := ["x"],
         outputs := [],
         params := { mode := none, window_size := none, batch_mode := none } }],
    http_mode := false }

/-- Witness for C9 (amended) at concrete inputs: both declarations of
`cfgSmall` are instantiated in order, and the output-less `CsvReader` of
`cfgCsvNoOutput` panics the spawn. -/
theorem initialize_atomic_or_constructible_witness :
    handle_initialize_msg false cfgSmall =
      some [("A", StepKind.dataGenerator), ("B", StepKind.printer)] ∧
    handle_initialize_msg false cfgCsvNoOutput = none := by
  constructor
  · have h := ((initialize_atomic_or_constructible false cfgSmall).2
      (by decide)).1 (by decide)
    rw [h]
    decide
  · exact ((initialize_atomic_or_constructible false cfgCsvNoOutput).2
      (by decide)).2 (by decide)

/-- `Coordinator` state (src/coordinator.rs lines 53-59): the actors map,
the routing table and the optional request-reply registry (modelled by its
presence; actor addresses by their kinds). -/
structure Coordinator where
  actors : List (String × StepKind)
  adjacency : List (String × List String)
  sender_map_present : Bool
deriving DecidableEq

/-- `Coordinator::new` (src/coordinator.rs lines 63-83). -/
def Coordinator.new (cfg : Config) (sender_map_present : Bool) : Coordinator :=
  { actors := [], adjacency := buildAdjacency cfg,
    sender_map_present := sender_map_present }

/-- Handler of `ProcessMessage` for `Coordinator` (src/coordinator.rs lines
409-432): look up `adjacency[msg.node_id]` and send a clone of the message
to each registered downstream actor; an unregistered downstream or a missing
adjacency entry only logs.  Returns the (unchanged) coordinator and the
deliveries as (step name, message) pairs. -/
def route_process_message (c : Coordinator) (msg : ProcessMessage) :
    Coordinator × List (String × ProcessMessage) :=
  match alookup msg.node_id c.adjacency with
  | some downs =>
    (c, downs.filterMap
      (fun down => (alookup down c.actors).map (fun _ => (down, msg))))
  | none => (c, [])

/-- C10.  Routing never modifies the coordinator's state; a message whose
`node_id` has no adjacency entry is delivered to no step; and a delivery
`(d, m)` happens exactly when `d` is listed downstream of `msg.node_id` with
a registered handle, `m` being the unaltered message. -/
theorem coordinator_route_frame (c : Coordinator) (msg : ProcessMessage) :
    (route_process_message c msg).1 = c ∧
    (alookup msg.node_id c.adjacency = none →
      (route_process_message c msg).2 = []) ∧
    (∀ p : String × ProcessMessage,
      p ∈ (route_process_message c msg).2 ↔
        (p.2 = msg ∧ ∃ downs, alookup msg.node_id c.adjacency = some downs ∧
          p.1 ∈ downs ∧ (alookup p.1 c.actors).isSome)) := by
  cases hadj : alookup msg.node_id c.adjacency with
  | none =>
    refine ⟨?_, ?_, ?_⟩
    · simp [route_process_message, hadj]
    · intro _
      simp [route_process_message, hadj]
    · intro p
      simp [route_process_message, hadj]
  | some downs =>
    refine ⟨?_, ?_, ?_⟩
    · simp [route_process_message, hadj]
    · intro hcontra
      exact absurd hcontra (by simp)
    · intro p
      simp only [route_process_message, hadj]
      rw [List.mem_filterMap]
      constructor
      · rintro ⟨d, hd, hmap⟩
        cases hact : alookup d c.actors with
        | none => rw [hact] at hmap; cases hmap
        | some a =>
          rw [hact, Option.map_some'] at hmap
          injection hmap with hp
          subst hp
          exact ⟨rfl, downs, rfl, hd, by rw [hact]; rfl⟩
      · rintro ⟨hp2, downs', hdowns', hp1, hsome⟩
        injection hdowns' with hdeq
        subst hdeq
        refine ⟨p.1, hp1, ?_⟩
        cases hact : alookup p.1 c.actors with
        | none =>
          rw [hact] at hsome
          simp at hsome
        | some a =>
          have hpe : (p.1, msg) = p := by
            rw [← hp2]
          rw [Option.map_some', hpe]

/-- Witness for C10 at a concrete input: routing through a one-entry table
leaves the coordinator state unchanged. -/
theorem coordinator_route_frame_witness :
    (route_process_message
        { actors := [("b", StepKind.printer)], adjacency := [("x", ["b"])],
          sender_map_present := false }
        { id := 1, node_id := "x", data := [], batch_id := none,
          batch_total := none }).1 =
      { actors := [("b", StepKind.printer)], adjacency := [("x", ["b"])],
        sender_map_present := false } := by
  exact (coordinator_route_frame
    { actors := [("b", StepKind.printer)], adjacency := [("x", ["b"])],
      sender_map_present := false }
    { id := 1, node_id := "x", data := [], batch_id := none,
      batch_total := none }).1

end ActorPoc
